import Mathlib

/-!
Verification development for the structured external-tool invocation layer
(`src/utils/llm_cli.py`): provider resolution (`get_cli_config`), prompt
augmentation, process invocation and failure classification (`call_llm_cli`),
and multi-strategy JSON extraction (`extract_json_from_cli_response`).

Python's `json` values are embedded as the mutual inductive `Json`;
`json.loads` is modelled by a strict recursive-descent parser over `List Char`
(`loadsE` / `loads`), restricted to integer numerals (no floats) and to the
escape sequences `json.dumps` emits; `json.dumps` with its default separators
is modelled by `serVal` / `dumps`. Python `None` is identified with `Option.none`
at the boundary of `extract_json_from_cli_response`, matching the fact that a
parsed JSON `null` and "nothing extracted" are the same Python value.
-/

namespace LlmCli

/-- JSON whitespace characters accepted between tokens by `json.loads`. -/
def isJsonWs (c : Char) : Bool :=
  c == ' ' || c == '\t' || c == '\n' || c == '\r'

/-- Whitespace stripped by Python's `str.strip()` and by the regex class
`\s` in the fence-extraction patterns (ASCII fragment). -/
def isWsC (c : Char) : Bool :=
  c == ' ' || c == '\t' || c == '\n' || c == '\r' ||
  c == Char.ofNat 12 || c == Char.ofNat 11

/-- ASCII decimal digit test. -/
def isDigitC (c : Char) : Bool :=
  48 ≤ c.toNat && c.toNat ≤ 57

/-- Skip JSON whitespace. -/
def jskipWs : List Char → List Char
  | [] => []
  | c :: cs => if isJsonWs c then jskipWs cs else c :: cs

/-- `l.dropWhile isWsC` from the back: models the trailing part of
`str.strip()` / the regex `\s*` before a closing fence. -/
def dropTrailWs (l : List Char) : List Char :=
  ((l.reverse).dropWhile isWsC).reverse

/-- Python `str.strip()` on a character list. -/
def pyStrip (l : List Char) : List Char :=
  dropTrailWs (l.dropWhile isWsC)

mutual
/-- Python-side JSON value, as produced by `json.loads`. -/
inductive Json where
  | null : Json
  | bool (b : Bool) : Json
  | num (n : Int) : Json
  | str (s : String) : Json
  | arr (items : JsonList) : Json
  | obj (members : JsonMembers) : Json

/-- A JSON array body. -/
inductive JsonList where
  | nil : JsonList
  | cons (hd : Json) (tl : JsonList) : JsonList

/-- A JSON object body: ordered key/value members. -/
inductive JsonMembers where
  | nil : JsonMembers
  | cons (k : String) (v : Json) (tl : JsonMembers) : JsonMembers
end

/-- Decimal digit character. -/
def digitChar : Nat → Char
  | 0 => '0' | 1 => '1' | 2 => '2' | 3 => '3' | 4 => '4'
  | 5 => '5' | 6 => '6' | 7 => '7' | 8 => '8' | _ => '9'

/-- Decimal numeral of a natural number, most significant digit first
(fuel-based so that it reduces in the kernel). -/
def serNatAux : Nat → Nat → List Char
  | 0, _ => []
  | fuel + 1, n =>
    if n < 10 then [digitChar n]
    else serNatAux fuel (n / 10) ++ [digitChar (n % 10)]

/-- Decimal numeral of a natural number. -/
def serNat (n : Nat) : List Char := serNatAux (n + 1) n

/-- Decimal numeral of an integer, as emitted by `json.dumps`. -/
def serInt (i : Int) : List Char :=
  if i < 0 then '-' :: serNat i.natAbs else serNat i.toNat

/-- String-character escaping performed by `json.dumps` (the sequences it
emits for the characters this model distinguishes). -/
def escChar (c : Char) : List Char :=
  if c = '"' then ['\\', '"']
  else if c = '\\' then ['\\', '\\']
  else if c = '\n' then ['\\', 'n']
  else if c = '\t' then ['\\', 't']
  else if c = '\r' then ['\\', 'r']
  else if c = Char.ofNat 8 then ['\\', 'b']
  else if c = Char.ofNat 12 then ['\\', 'f']
  else [c]

/-- Escape every character of a string body. -/
def encChars : List Char → List Char
  | [] => []
  | c :: tl => escChar c ++ encChars tl

/-- `json.dumps` of a string, quotes included. -/
def serStr (s : String) : List Char :=
  '"' :: (encChars s.data ++ ['"'])

mutual
/-- `json.dumps(v)` with the default separators `", "` and `": "`. -/
def serVal : Json → List Char
  | .null => "null".data
  | .bool true => "true".data
  | .bool false => "false".data
  | .num i => serInt i
  | .str s => serStr s
  | .arr items => '[' :: (serList items ++ [']'])
  | .obj members => '{' :: (serMembers members ++ ['}'])

/-- `json.dumps` of an array body. -/
def serList : JsonList → List Char
  | .nil => []
  | .cons x .nil => serVal x
  | .cons x tl => serVal x ++ ',' :: ' ' :: serList tl

/-- `json.dumps` of an object body. -/
def serMembers : JsonMembers → List Char
  | .nil => []
  | .cons k v .nil => serStr k ++ ':' :: ' ' :: serVal v
  | .cons k v tl => serStr k ++ ':' :: ' ' :: serVal v ++ ',' :: ' ' :: serMembers tl
end

/-- The direct JSON serialization of a value, as a string. -/
def dumps (v : Json) : String := ⟨serVal v⟩

/-- Decode one backslash escape accepted by `json.loads`
(`\u` escapes are outside this model). -/
def decodeEsc (e : Char) : Option Char :=
  if e = '"' then some '"'
  else if e = '\\' then some '\\'
  else if e = '/' then some '/'
  else if e = 'n' then some '\n'
  else if e = 't' then some '\t'
  else if e = 'r' then some '\r'
  else if e = 'b' then some (Char.ofNat 8)
  else if e = 'f' then some (Char.ofNat 12)
  else none

/-- Parse the body of a JSON string after the opening quote, returning the
decoded characters and the remainder after the closing quote. -/
def parseStrBody : List Char → Option (List Char × List Char)
  | [] => none
  | c :: rest =>
    if c = '"' then some ([], rest)
    else if c = '\\' then
      match rest with
      | [] => none
      | e :: rest' =>
        match decodeEsc e with
        | some d => (parseStrBody rest').map (fun p => (d :: p.1, p.2))
        | none => none
    else (parseStrBody rest).map (fun p => (c :: p.1, p.2))

/-- Split a leading run of decimal digits. -/
def takeDigits : List Char → List Char × List Char
  | [] => ([], [])
  | c :: rest =>
    if isDigitC c then
      let p := takeDigits rest
      (c :: p.1, p.2)
    else ([], c :: rest)

/-- Value of a digit string, most significant first. -/
def digitsToNat (l : List Char) : Nat :=
  l.foldl (fun a c => a * 10 + (c.toNat - 48)) 0

/-- Parse a JSON integer numeral (this model restricts JSON numbers to
integers; float forms fail to parse here). -/
def parseNum (cs : List Char) : Option (Json × List Char) :=
  match cs with
  | [] => none
  | c :: rest =>
    if c = '-' then
      let p := takeDigits rest
      if p.1.isEmpty then none
      else some (.num (-(digitsToNat p.1 : Int)), p.2)
    else
      let p := takeDigits (c :: rest)
      if p.1.isEmpty then none
      else some (.num (digitsToNat p.1 : Int), p.2)

mutual
/-- Recursive-descent parser for a JSON value (models `json.loads`'s scanner);
`fuel` bounds the recursion and is instantiated with the input length. -/
def parseVal : Nat → List Char → Option (Json × List Char)
  | 0, _ => none
  | fuel + 1, cs₀ =>
    match jskipWs cs₀ with
    | [] => none
    | c :: rest =>
      if c = '{' then
        match jskipWs rest with
        | [] => none
        | d :: r2 =>
          if d = '}' then some (.obj .nil, r2)
          else
            match parseMembers fuel (d :: r2) with
            | some (ms, r) => some (.obj ms, r)
            | none => none
      else if c = '[' then
        match jskipWs rest with
        | [] => none
        | d :: r2 =>
          if d = ']' then some (.arr .nil, r2)
          else
            match parseItems fuel (d :: r2) with
            | some (items, r) => some (.arr items, r)
            | none => none
      else if c = '"' then
        match parseStrBody rest with
        | some (s, r) => some (.str ⟨s⟩, r)
        | none => none
      else if c = 't' then
        match rest with
        | 'r' :: 'u' :: 'e' :: r => some (.bool true, r)
        | _ => none
      else if c = 'f' then
        match rest with
        | 'a' :: 'l' :: 's' :: 'e' :: r => some (.bool false, r)
        | _ => none
      else if c = 'n' then
        match rest with
        | 'u' :: 'l' :: 'l' :: r => some (.null, r)
        | _ => none
      else if c = '-' || isDigitC c then parseNum (c :: rest)
      else none

/-- Parse the members of a JSON object after the opening brace (first key
expected at the head of the input), returning the members and the remainder
after the closing brace. -/
def parseMembers : Nat → List Char → Option (JsonMembers × List Char)
  | 0, _ => none
  | fuel + 1, cs =>
    match cs with
    | [] => none
    | c :: rest =>
      if c = '"' then
        match parseStrBody rest with
        | none => none
        | some (k, r1) =>
          match jskipWs r1 with
          | [] => none
          | d :: r2 =>
            if d = ':' then
              match parseVal fuel r2 with
              | none => none
              | some (v, r3) =>
                match jskipWs r3 with
                | [] => none
                | e :: r4 =>
                  if e = ',' then
                    match parseMembers fuel (jskipWs r4) with
                    | none => none
                    | some (ms, r5) => some (.cons ⟨k⟩ v ms, r5)
                  else if e = '}' then some (.cons ⟨k⟩ v .nil, r4)
                  else none
            else none
      else none

/-- Parse the items of a JSON array after the opening bracket (first item
expected at the head of the input), returning the items and the remainder
after the closing bracket. -/
def parseItems : Nat → List Char → Option (JsonList × List Char)
  | 0, _ => none
  | fuel + 1, cs =>
    match parseVal fuel cs with
    | none => none
    | some (v, r1) =>
      match jskipWs r1 with
      | [] => none
      | c :: r2 =>
        if c = ',' then
          match parseItems fuel r2 with
          | some (items, r) => some (.cons v items, r)
          | none => none
        else if c = ']' then some (.cons v .nil, r2)
        else none
end

/-- `json.loads` on a character list: parse one value and require only
whitespace to follow; a parse error is an `Except.error`
(`json.JSONDecodeError` on the Python side). -/
def loadsE (cs : List Char) : Except String Json :=
  match parseVal (cs.length + 1) cs with
  | none => .error "Expecting value"
  | some (v, rest) =>
    if (jskipWs rest).isEmpty then .ok v else .error "Extra data"

/-- `json.loads` with the decode error absorbed (the shape in which every
extraction strategy of `extract_json_from_cli_response` consumes it). -/
def loads (cs : List Char) : Option Json := (loadsE cs).toOption

/-- Python's substring test `needle in hay`. -/
def subOf (needle : List Char) : List Char → Bool
  | [] => needle.isPrefixOf []
  | c :: tl => needle.isPrefixOf (c :: tl) || subOf needle tl

/-- Index of the first occurrence of a pattern. -/
def findSub (pat : List Char) : List Char → Option Nat
  | [] => if pat.isPrefixOf ([] : List Char) then some 0 else none
  | c :: tl =>
    if pat.isPrefixOf (c :: tl) then some 0
    else (findSub pat tl).map (· + 1)

/-- The closing / generic code-fence token. -/
def fence3 : List Char := ['`', '`', '`']

/-- The opening token of the explicitly JSON-tagged fence pattern. -/
def tagJson : List Char := ['`', '`', '`', 'j', 's', 'o', 'n']

/-- Model of `re.search(tag + r'\s*([\s\S]*?)\s*` + "```" + `', content)`:
scan for the leftmost occurrence of `tag` that is followed by a closing
triple backtick, and return the captured group, i.e. the text strictly
between the two, trimmed of surrounding whitespace (the greedy `\s*` on
both sides of the lazy group). -/
def fenceSearch (tag : List Char) : List Char → Option (List Char)
  | [] => none
  | c :: tl =>
    if tag.isPrefixOf (c :: tl) then
      let t := (c :: tl).drop tag.length
      match findSub fence3 t with
      | some j => some (dropTrailWs ((t.take j).dropWhile isWsC))
      | none => none
    else fenceSearch tag tl

/-- Index of the first occurrence of a character (Python `str.find`
restricted to the found case). -/
def firstIdx (ch : Char) : List Char → Option Nat
  | [] => none
  | c :: tl => if c = ch then some 0 else (firstIdx ch tl).map (· + 1)

/-- Index of the last occurrence of a character (Python `str.rfind`
restricted to the found case). -/
def lastIdx (ch : Char) (l : List Char) : Option Nat :=
  (firstIdx ch l.reverse).map (fun i => l.length - 1 - i)

/-- Strategy 3 candidate: `content[content.find('{') : content.rfind('}') + 1]`
when both braces exist and the last `\x7d` follows the first `\x7b`. -/
def braceSpan (c : List Char) : Option (List Char) :=
  match firstIdx '{' c, lastIdx '}' c with
  | some i, some j => if i < j then some ((c.drop i).take (j + 1 - i)) else none
  | _, _ => none

/-- The strategy cascade of `extract_json_from_cli_response`: direct parse,
then the `json`-tagged fence, then the generic fence, then the first-brace
to last-brace span; the first strategy whose candidate parses returns its
value (a candidate that fails to parse falls through, exactly as each
`except json.JSONDecodeError: pass` does). -/
def extractCore (c : List Char) : Option Json :=
  match loads c with
  | some v => some v
  | none =>
    match (fenceSearch tagJson c).bind loads with
    | some v => some v
    | none =>
      match (fenceSearch fence3 c).bind loads with
      | some v => some v
      | none => (braceSpan c).bind loads

/-- `extract_json_from_cli_response` (lines 99-142): strip the content, try
the four strategies, and surface the result as the function's Python return
value — a parsed JSON `null` is the same Python value `None` as "nothing
found", so both map to `none` here. -/
def extract_json_from_cli_response (content : String) : Option Json :=
  match extractCore (pyStrip content.data) with
  | some .null => none
  | some v => some v
  | none => none

/-- One entry of `CLI_PROVIDERS`: executable, argument template, display name. -/
structure CLIConfig where
  cmd : String
  args : List String
  name : String
deriving DecidableEq

/-- `CLI_PROVIDERS["anthropic"]`. -/
def cfgAnthropic : CLIConfig := ⟨"claude", ["-p"], "Claude"⟩

/-- `CLI_PROVIDERS["google"]`. -/
def cfgGoogle : CLIConfig := ⟨"gemini", ["-y", "-p"], "Gemini"⟩

/-- `CLI_PROVIDERS["openai"]`. -/
def cfgOpenai : CLIConfig := ⟨"codex", ["exec"], "Codex"⟩

/-- `CLI_PROVIDERS["default"]` (fallback: claude for unknown providers). -/
def cfgDefault : CLIConfig := ⟨"claude", ["-p"], "Claude"⟩

/-- The `CLI_PROVIDERS` table itself. -/
def CLI_PROVIDERS : List (String × CLIConfig) :=
  [("anthropic", cfgAnthropic), ("google", cfgGoogle),
   ("openai", cfgOpenai), ("default", cfgDefault)]

/-- Python `str.lower()` (ASCII fragment, as Lean's `Char.toLower`). -/
def lowerStr (s : String) : List Char := s.data.map Char.toLower

/-- Does the lowercased identifier match the anthropic family? -/
def matchAnthropic (s : String) : Bool :=
  subOf "anthropic".data (lowerStr s) || subOf "claude".data (lowerStr s)

/-- Does the lowercased identifier match the google family? -/
def matchGoogle (s : String) : Bool :=
  subOf "google".data (lowerStr s) || subOf "gemini".data (lowerStr s)

/-- Does the lowercased identifier match the openai family? -/
def matchOpenai (s : String) : Bool :=
  subOf "openai".data (lowerStr s) || subOf "gpt".data (lowerStr s) ||
  subOf "codex".data (lowerStr s)

/-- `get_cli_config` (lines 25-37): priority-ordered case-insensitive
substring tests, first match wins, unknown providers get the default. -/
def get_cli_config (model_provider : String) : CLIConfig :=
  if matchAnthropic model_provider then cfgAnthropic
  else if matchGoogle model_provider then cfgGoogle
  else if matchOpenai model_provider then cfgOpenai
  else cfgDefault

/-- Field types of the pydantic-model schema fragment this model covers. -/
inductive FieldTy where
  | tInt : FieldTy
  | tStr : FieldTy
  | tBool : FieldTy
deriving DecidableEq

/-- A caller-supplied schema: named, typed, required fields
(the pydantic model class of `call_llm_cli`). -/
structure Schema where
  fields : List (String × FieldTy)

/-- Does a scalar value have the given field type? -/
def scalarMatches : FieldTy → Json → Bool
  | .tInt, .num _ => true
  | .tStr, .str _ => true
  | .tBool, .bool _ => true
  | _, _ => false

/-- Do object members conform, field by field, to the schema's field list? -/
def fieldsMatch : List (String × FieldTy) → JsonMembers → Bool
  | [], .nil => true
  | (k, t) :: fs, .cons k' v ms => k == k' && scalarMatches t v && fieldsMatch fs ms
  | _, _ => false

/-- Schema conformance of a structured value (validation succeeds and the
materialized model equals the value). -/
def conformsTo (s : Schema) : Json → Bool
  | .obj ms => fieldsMatch s.fields ms
  | _ => false

/-- A Python exception surfaced to the caller of `call_llm_cli`:
`exc` is the builtin generic `Exception(message)` the function raises
itself; `validationError` is pydantic's `ValidationError`; `typeError` is
the interpreter's `TypeError` from `**`-unpacking a non-mapping. -/
inductive PyError where
  | exc (msg : String) : PyError
  | validationError (msg : String) : PyError
  | typeError (msg : String) : PyError
deriving DecidableEq

/-- The Python exception class a failure arrives as, which is all a caller
can dispatch on without parsing message prose. -/
def excClassName : PyError → String
  | .exc _ => "Exception"
  | .validationError _ => "ValidationError"
  | .typeError _ => "TypeError"

/-- Python truthiness of an extracted value (`if parsed:`). -/
def truthy : Json → Bool
  | .null => false
  | .bool b => b
  | .num n => decide (n ≠ 0)
  | .str s => !s.data.isEmpty
  | .arr .nil => false
  | .arr _ => true
  | .obj .nil => false
  | .obj _ => true

/-- `pydantic_model(**parsed)`: `**`-unpacking demands a mapping (else
`TypeError`); pydantic then validates the fields against the schema (else
`ValidationError`), and on success the typed result carries the parsed
fields. -/
def validateModel (schema : Schema) (v : Json) : Except PyError Json :=
  match v with
  | .obj ms =>
    if fieldsMatch schema.fields ms then .ok (.obj ms)
    else .error (.validationError "validation error for pydantic model")
  | _ => .error (.typeError "argument after ** must be a mapping")

/-- Lines 83-91 of `call_llm_cli`: strip the stdout, extract, test the
extracted value for truthiness, and either materialize the pydantic model
or raise the extraction-failure `Exception` with a 500-character preview. -/
def materialize (schema : Schema) (stdout : String) : Except PyError Json :=
  let response : List Char := pyStrip stdout.data
  match extract_json_from_cli_response ⟨response⟩ with
  | some parsed =>
    if truthy parsed then validateModel schema parsed
    else .error (.exc ("Could not extract valid JSON from CLI response: "
      ++ ⟨response.take 500⟩))
  | none => .error (.exc ("Could not extract valid JSON from CLI response: "
      ++ ⟨response.take 500⟩))

/-- What the spawned child process did, from the point of view of
`subprocess.run`: raised `TimeoutExpired`, raised `FileNotFoundError`
(executable absent), or completed with an exit status and captured output. -/
inductive RunOutcome where
  | timedOut : RunOutcome
  | fileNotFound : RunOutcome
  | completed (returncode : Int) (stdout : String) (stderr : String) : RunOutcome

/-- `call_llm_cli` (lines 40-96) over an explicit subprocess outcome: the
`try`/`except` structure catches exactly `TimeoutExpired` and
`FileNotFoundError` and re-raises both as the builtin generic `Exception`;
a non-zero exit status and a failed extraction also raise the builtin
generic `Exception`; pydantic errors propagate as their own classes. -/
def call_llm_cli (schema : Schema) (model_provider : String) (timeout : Nat)
    (outcome : RunOutcome) : Except PyError Json :=
  let cli_config := get_cli_config model_provider
  match outcome with
  | .timedOut =>
    .error (.exc ("CLI command timed out after " ++ toString timeout ++ " seconds"))
  | .fileNotFound =>
    .error (.exc ("CLI tool '" ++ cli_config.cmd
      ++ "' not found. Please ensure it's installed and in PATH."))
  | .completed rc out _err =>
    if rc ≠ 0 then .error (.exc ("CLI command failed: " ++ _err))
    else materialize schema out

/-- The instruction block `call_llm_cli` appends to the prompt (lines 62-67),
parameterized by the serialized JSON schema. -/
def instrBlock (schemaJson : String) : String :=
  "\n\nIMPORTANT: You must respond with valid JSON that matches this schema:\n"
  ++ schemaJson
  ++ "\n\nRespond ONLY with the JSON object, no markdown code blocks, no explanation."

/-- The augmented prompt of `call_llm_cli` (lines 62-67). -/
def augment (prompt schemaJson : String) : String :=
  prompt
  ++ "\n\nIMPORTANT: You must respond with valid JSON that matches this schema:\n"
  ++ schemaJson
  ++ "\n\nRespond ONLY with the JSON object, no markdown code blocks, no explanation."

/-- Scalar JSON values (the field values the schema fragment covers). -/
def isScalar : Json → Bool
  | .num _ => true
  | .str _ => true
  | .bool _ => true
  | _ => false

/-- All member values are scalars. -/
def allScalar : JsonMembers → Bool
  | .nil => true
  | .cons _ v tl => isScalar v && allScalar tl

/-- Number of members. -/
def countMembers : JsonMembers → Nat
  | .nil => 0
  | .cons _ _ tl => countMembers tl + 1

theorem isPrefixOf_iff (n h : List Char) :
    n.isPrefixOf h = true ↔ ∃ t, h = n ++ t := by
  induction n generalizing h with
  | nil => simp [List.isPrefixOf]
  | cons a as ih =>
    cases h with
    | nil => simp [List.isPrefixOf]
    | cons b bs =>
      simp only [List.isPrefixOf, Bool.and_eq_true, beq_iff_eq, ih, List.cons_append,
        List.cons.injEq]
      constructor
      · rintro ⟨rfl, t, rfl⟩; exact ⟨t, rfl, rfl⟩
      · rintro ⟨t, rfl, rfl⟩; exact ⟨rfl, t, rfl⟩

theorem subOf_iff (n h : List Char) :
    subOf n h = true ↔ ∃ a b, h = a ++ (n ++ b) := by
  induction h with
  | nil =>
    simp only [subOf, isPrefixOf_iff]
    constructor
    · rintro ⟨t, ht⟩; exact ⟨[], t, ht⟩
    · rintro ⟨a, b, hab⟩
      rcases List.append_eq_nil.mp hab.symm with ⟨rfl, h2⟩
      exact ⟨b, by simpa using hab⟩
  | cons c tl ih =>
    simp only [subOf, Bool.or_eq_true, isPrefixOf_iff, ih]
    constructor
    · rintro (⟨t, ht⟩ | ⟨a, b, hab⟩)
      · exact ⟨[], t, by simpa using ht⟩
      · exact ⟨c :: a, b, by simp [hab]⟩
    · rintro ⟨a, b, hab⟩
      cases a with
      | nil => exact Or.inl ⟨b, by simpa using hab⟩
      | cons a' as =>
        right
        refine ⟨as, b, ?_⟩
        simp only [List.cons_append, List.cons.injEq] at hab
        exact hab.2

theorem subOf_parts (n a b : List Char) : subOf n (a ++ (n ++ b)) = true :=
  (subOf_iff n _).mpr ⟨a, b, rfl⟩

theorem subOf_append_right {n h : List Char} (h₂ : List Char)
    (hs : subOf n h = true) : subOf n (h ++ h₂) = true := by
  obtain ⟨a, b, rfl⟩ := (subOf_iff n h).mp hs
  have : a ++ (n ++ b) ++ h₂ = a ++ (n ++ (b ++ h₂)) := by simp
  rw [this]; exact subOf_parts ..

theorem subOf_append_left {n h : List Char} (h₂ : List Char)
    (hs : subOf n h = true) : subOf n (h₂ ++ h) = true := by
  obtain ⟨a, b, rfl⟩ := (subOf_iff n h).mp hs
  have : h₂ ++ (a ++ (n ++ b)) = (h₂ ++ a) ++ (n ++ b) := by simp
  rw [this]; exact subOf_parts ..

theorem string_eta (s : String) : String.mk s.data = s := rfl

theorem strData_append (a b : String) : (a ++ b).data = a.data ++ b.data := rfl

theorem strExt {a b : String} (h : a.data = b.data) : a = b :=
  congrArg String.mk h

theorem jskipWs_cons_of_not {c : Char} (h : isJsonWs c = false) (l : List Char) :
    jskipWs (c :: l) = c :: l := by
  simp [jskipWs, h]

theorem jskipWs_cons_of_ws {c : Char} (h : isJsonWs c = true) (l : List Char) :
    jskipWs (c :: l) = jskipWs l := by
  simp [jskipWs, h]

theorem dropTrailWs_wrap {z : Char} (h : isWsC z = false) (l : List Char) :
    dropTrailWs (l ++ [z]) = l ++ [z] := by
  simp [dropTrailWs, List.dropWhile, h]

theorem pyStrip_wrap {a z : Char} (ha : isWsC a = false) (hz : isWsC z = false)
    (xs : List Char) : pyStrip (a :: (xs ++ [z])) = a :: (xs ++ [z]) := by
  have h1 : (a :: (xs ++ [z])).dropWhile isWsC = a :: (xs ++ [z]) := by
    simp [List.dropWhile, ha]
  have h2 : a :: (xs ++ [z]) = (a :: xs) ++ [z] := by simp
  rw [pyStrip, h1, h2, dropTrailWs_wrap hz]

theorem pyStrip_parts (l : List Char) : ∃ a b, l = a ++ (pyStrip l ++ b) := by
  refine ⟨l.takeWhile isWsC,
    (((l.dropWhile isWsC).reverse.takeWhile isWsC).reverse), ?_⟩
  have h1 : l = l.takeWhile isWsC ++ l.dropWhile isWsC :=
    (List.takeWhile_append_dropWhile isWsC l).symm
  have h2 : l.dropWhile isWsC =
      pyStrip l ++ ((l.dropWhile isWsC).reverse.takeWhile isWsC).reverse := by
    have h3 : (l.dropWhile isWsC).reverse =
        (l.dropWhile isWsC).reverse.takeWhile isWsC ++
        (l.dropWhile isWsC).reverse.dropWhile isWsC :=
      (List.takeWhile_append_dropWhile isWsC _).symm
    calc l.dropWhile isWsC = (l.dropWhile isWsC).reverse.reverse := by
            rw [List.reverse_reverse]
      _ = ((l.dropWhile isWsC).reverse.takeWhile isWsC ++
            (l.dropWhile isWsC).reverse.dropWhile isWsC).reverse := by rw [← h3]
      _ = pyStrip l ++ ((l.dropWhile isWsC).reverse.takeWhile isWsC).reverse := by
            rw [List.reverse_append]; rfl
  conv_lhs => rw [h1, h2]

theorem subOf_pyStrip_false {n l : List Char} (h : subOf n l = false) :
    subOf n (pyStrip l) = false := by
  by_contra hc
  have ht : subOf n (pyStrip l) = true := by
    cases hs : subOf n (pyStrip l) with
    | false => exact absurd hs hc
    | true => rfl
  obtain ⟨x, y, hxy⟩ := (subOf_iff n _).mp ht
  obtain ⟨a, b, hab⟩ := pyStrip_parts l
  have : l = (a ++ x) ++ (n ++ (y ++ b)) := by rw [hab, hxy]; simp
  have := (subOf_iff n l).mpr ⟨a ++ x, y ++ b, this⟩
  rw [h] at this; exact Bool.false_ne_true this

theorem mem_pyStrip {c : Char} {l : List Char} (h : c ∈ pyStrip l) : c ∈ l := by
  obtain ⟨a, b, hab⟩ := pyStrip_parts l
  rw [hab]; simp [h]

theorem isDigitC_digitChar (d : Nat) : isDigitC (digitChar d) = true := by
  match d with
  | 0 | 1 | 2 | 3 | 4 | 5 | 6 | 7 | 8 => decide
  | n + 9 => show isDigitC '9' = true; decide

theorem digitChar_val {d : Nat} (h : d < 10) : (digitChar d).toNat - 48 = d := by
  interval_cases d <;> decide

theorem serNatAux_irrel (n : Nat) : ∀ f₁ f₂, n < f₁ → n < f₂ →
    serNatAux f₁ n = serNatAux f₂ n := by
  induction n using Nat.strong_induction_on with
  | _ n ih =>
    intro f₁ f₂ h₁ h₂
    obtain ⟨g₁, rfl⟩ : ∃ g, f₁ = g + 1 := ⟨f₁ - 1, by omega⟩
    obtain ⟨g₂, rfl⟩ : ∃ g, f₂ = g + 1 := ⟨f₂ - 1, by omega⟩
    by_cases h10 : n < 10
    · simp [serNatAux, h10]
    · have hd : n / 10 < n := Nat.div_lt_self (by omega) (by omega)
      simp only [serNatAux, h10, if_false]
      rw [ih (n / 10) hd g₁ g₂ (by omega) (by omega)]

theorem serNat_eq (n : Nat) : serNat n =
    if n < 10 then [digitChar n] else serNat (n / 10) ++ [digitChar (n % 10)] := by
  by_cases h10 : n < 10
  · simp [serNat, serNatAux, h10]
  · rw [if_neg h10]
    have h1 : serNatAux (n + 1) n = serNatAux n (n / 10) ++ [digitChar (n % 10)] := by
      simp [serNatAux, h10]
    show serNatAux (n + 1) n = serNatAux (n / 10 + 1) (n / 10) ++ [digitChar (n % 10)]
    rw [h1, serNatAux_irrel (n / 10) n (n / 10 + 1) (by omega) (by omega)]

theorem serNat_all_digits (n : Nat) : ∀ c ∈ serNat n, isDigitC c = true := by
  induction n using Nat.strong_induction_on with
  | _ n ih =>
    rw [serNat_eq]
    by_cases h10 : n < 10
    · simp only [h10, if_true]
      intro c hc
      simp only [List.mem_singleton] at hc
      subst hc; exact isDigitC_digitChar n
    · have hd : n / 10 < n := Nat.div_lt_self (by omega) (by omega)
      simp only [h10, if_false]
      intro c hc
      rcases List.mem_append.mp hc with h | h
      · exact ih _ hd c h
      · simp only [List.mem_singleton] at h
        subst h; exact isDigitC_digitChar _

theorem serNat_ne_nil (n : Nat) : serNat n ≠ [] := by
  rw [serNat_eq]
  by_cases h10 : n < 10 <;> simp [h10]

theorem foldl_serNat (n : Nat) : ∀ a : Nat,
    (serNat n).foldl (fun x c => x * 10 + (c.toNat - 48)) a
      = a * 10 ^ (serNat n).length + n := by
  induction n using Nat.strong_induction_on with
  | _ n ih =>
    intro a
    rw [serNat_eq]
    by_cases h10 : n < 10
    · simp [h10, List.foldl, digitChar_val h10]
    · have hd : n / 10 < n := Nat.div_lt_self (by omega) (by omega)
      simp only [h10, if_false, List.foldl_append, List.foldl,
        List.length_append, List.length_singleton]
      rw [ih _ hd a, digitChar_val (Nat.mod_lt n (by omega))]
      have hdm : 10 * (n / 10) + n % 10 = n := Nat.div_add_mod n 10
      have : (a * 10 ^ (serNat (n / 10)).length + n / 10) * 10 + n % 10
          = a * (10 ^ (serNat (n / 10)).length * 10) + (10 * (n / 10) + n % 10) := by
        ring
      rw [this, hdm, pow_succ]

theorem digitsToNat_serNat (n : Nat) : digitsToNat (serNat n) = n := by
  rw [digitsToNat, foldl_serNat n 0]; simp

/-- There is no decimal digit at the head (so a maximal digit run ends here). -/
def headNotDigit : List Char → Prop
  | [] => True
  | c :: _ => isDigitC c = false

theorem takeDigits_append {l : List Char} (hl : ∀ c ∈ l, isDigitC c = true) :
    ∀ rest, headNotDigit rest → takeDigits (l ++ rest) = (l, rest) := by
  induction l with
  | nil =>
    intro rest hr
    cases rest with
    | nil => rfl
    | cons c tl =>
      simp only [headNotDigit] at hr
      simp [takeDigits, hr]
  | cons c tl ih =>
    intro rest hr
    have hc : isDigitC c = true := hl c (by simp)
    have htl : ∀ x ∈ tl, isDigitC x = true := fun x hx => hl x (by simp [hx])
    simp only [List.cons_append, takeDigits, hc, if_true]
    rw [List.append_eq, ih htl rest hr]

theorem parseNum_ser (i : Int) : ∀ rest, headNotDigit rest →
    parseNum (serInt i ++ rest) = some (.num i, rest) := by
  intro rest hr
  by_cases hneg : i < 0
  · have hne : serNat i.natAbs ≠ [] := serNat_ne_nil _
    simp only [serInt, hneg, if_true, List.cons_append, parseNum]
    rw [takeDigits_append (serNat_all_digits _) rest hr]
    simp only [List.isEmpty_iff, hne, if_false]
    rw [digitsToNat_serNat]
    have : -((i.natAbs : Nat) : Int) = i := by omega
    rw [this]
  · obtain ⟨c, ds, hds⟩ : ∃ c ds, serNat i.toNat = c :: ds := by
      cases h : serNat i.toNat with
      | nil => exact absurd h (serNat_ne_nil _)
      | cons c ds => exact ⟨c, ds, rfl⟩
    have hc : isDigitC c = true := serNat_all_digits _ c (by rw [hds]; simp)
    have hcm : c ≠ '-' := by
      intro h; subst h; exact absurd hc (by decide)
    simp only [serInt, hneg, if_false, hds, List.cons_append, parseNum,
      if_neg hcm]
    have : c :: (ds ++ rest) = (c :: ds) ++ rest := by simp
    rw [this, ← hds, takeDigits_append (serNat_all_digits _) rest hr]
    simp only [List.isEmpty_iff, serNat_ne_nil _, if_false]
    rw [digitsToNat_serNat]
    have : ((i.toNat : Nat) : Int) = i := by omega
    rw [this]

theorem parseStrBody_enc (l : List Char) : ∀ rest,
    parseStrBody (encChars l ++ '"' :: rest) = some (l, rest) := by
  induction l with
  | nil =>
    intro rest
    rw [show encChars [] ++ '"' :: rest = '"' :: rest by simp [encChars]]
    rw [parseStrBody.eq_def]; simp
  | cons c tl ih =>
    intro rest
    by_cases h1 : c = '"'
    · subst h1
      simp only [encChars, escChar, if_pos rfl, List.cons_append, List.nil_append,
        List.append_assoc]
      rw [parseStrBody.eq_def]; simp [decodeEsc, ih]
    by_cases h2 : c = '\\'
    · subst h2
      simp only [encChars, escChar, List.cons_append, List.nil_append,
        List.append_assoc]
      rw [parseStrBody.eq_def]; simp [decodeEsc, ih]
    by_cases h3 : c = '\n'
    · subst h3
      simp only [encChars, escChar, List.cons_append, List.nil_append,
        List.append_assoc]
      rw [parseStrBody.eq_def]; simp [decodeEsc, ih]
    by_cases h4 : c = '\t'
    · subst h4
      simp only [encChars, escChar, List.cons_append, List.nil_append,
        List.append_assoc]
      rw [parseStrBody.eq_def]; simp [decodeEsc, ih]
    by_cases h5 : c = '\r'
    · subst h5
      simp only [encChars, escChar, List.cons_append, List.nil_append,
        List.append_assoc]
      rw [parseStrBody.eq_def]; simp [decodeEsc, ih]
    by_cases h6 : c = Char.ofNat 8
    · subst h6
      simp only [encChars, escChar, List.cons_append, List.nil_append,
        List.append_assoc]
      rw [parseStrBody.eq_def]; simp [decodeEsc, ih]
    by_cases h7 : c = Char.ofNat 12
    · subst h7
      simp only [encChars, escChar, List.cons_append, List.nil_append,
        List.append_assoc]
      rw [parseStrBody.eq_def]; simp [decodeEsc, ih]
    · simp only [encChars, escChar, h1, h2, h3, h4, h5, h6, h7, if_false,
        List.cons_append, List.nil_append, List.append_assoc]
      rw [parseStrBody.eq_def]; simp [h1, h2, ih]

theorem digit_facts {c : Char} (h : isDigitC c = true) :
    c ≠ '{' ∧ c ≠ '[' ∧ c ≠ '"' ∧ c ≠ 't' ∧ c ≠ 'f' ∧ c ≠ 'n' ∧ isJsonWs c = false := by
  have w : ∀ d : Char, isDigitC d = false → c ≠ d := by
    intro d hd hc; rw [hc, hd] at h; exact Bool.false_ne_true h
  refine ⟨w _ (by decide), w _ (by decide), w _ (by decide), w _ (by decide),
    w _ (by decide), w _ (by decide), ?_⟩
  have e1 : (c == ' ') = false := beq_eq_false_iff_ne.mpr (w _ (by decide))
  have e2 : (c == '\t') = false := beq_eq_false_iff_ne.mpr (w _ (by decide))
  have e3 : (c == '\n') = false := beq_eq_false_iff_ne.mpr (w _ (by decide))
  have e4 : (c == '\r') = false := beq_eq_false_iff_ne.mpr (w _ (by decide))
  simp [isJsonWs, e1, e2, e3, e4]

theorem parseVal_scalar {v : Json} (hv : isScalar v = true) (f : Nat) :
    ∀ rest, headNotDigit rest → parseVal (f + 1) (serVal v ++ rest) = some (v, rest) := by
  intro rest hr
  cases v with
  | null => exact absurd hv (by decide)
  | arr items => exact absurd hv (by simp [isScalar])
  | obj ms => exact absurd hv (by simp [isScalar])
  | bool b =>
    cases b with
    | true =>
      rw [show serVal (.bool true) ++ rest = 't' :: 'r' :: 'u' :: 'e' :: rest by
        simp [serVal]]
      simp [parseVal.eq_def, jskipWs, isJsonWs]
    | false =>
      rw [show serVal (.bool false) ++ rest = 'f' :: 'a' :: 'l' :: 's' :: 'e' :: rest by
        simp [serVal]]
      simp [parseVal.eq_def, jskipWs, isJsonWs]
  | str s =>
    rw [show serVal (.str s) ++ rest = '"' :: (encChars s.data ++ '"' :: rest) by
      simp [serVal, serStr]]
    simp [parseVal.eq_def, jskipWs, isJsonWs, parseStrBody_enc, string_eta]
  | num i =>
    by_cases hneg : i < 0
    · rw [show serVal (.num i) ++ rest = '-' :: (serNat i.natAbs ++ rest) by
        simp [serVal, serInt, hneg]]
      have hstep : parseVal (f + 1) ('-' :: (serNat i.natAbs ++ rest))
          = parseNum ('-' :: (serNat i.natAbs ++ rest)) := by
        simp [parseVal.eq_def, jskipWs, isJsonWs]
      rw [hstep, show '-' :: (serNat i.natAbs ++ rest) = serInt i ++ rest by
        simp [serInt, hneg]]
      exact parseNum_ser i rest hr
    · obtain ⟨c, ds, hds⟩ : ∃ c ds, serNat i.toNat = c :: ds := by
        cases h : serNat i.toNat with
        | nil => exact absurd h (serNat_ne_nil _)
        | cons c ds => exact ⟨c, ds, rfl⟩
      have hc : isDigitC c = true := serNat_all_digits _ c (by rw [hds]; simp)
      obtain ⟨n1, n2, n3, n4, n5, n6, nws⟩ := digit_facts hc
      rw [show serVal (.num i) ++ rest = c :: (ds ++ rest) by
        simp [serVal, serInt, hneg, hds]]
      have hstep : parseVal (f + 1) (c :: (ds ++ rest))
          = parseNum (c :: (ds ++ rest)) := by
        simp [parseVal.eq_def, jskipWs, nws, n1, n2, n3, n4, n5, n6, hc]
      rw [hstep, show c :: (ds ++ rest) = serInt i ++ rest by
        simp [serInt, hneg, hds]]
      exact parseNum_ser i rest hr

theorem parseVal_ws_cons {a : Char} (ha : isJsonWs a = true) (g : Nat) (X : List Char) :
    parseVal (g + 1) (a :: X) = parseVal (g + 1) X := by
  simp only [parseVal.eq_def]
  rw [jskipWs_cons_of_ws ha]

theorem serMembers_nil_shape (k : String) (v : Json) (X : List Char) :
    serMembers (.cons k v .nil) ++ X
      = '"' :: (encChars k.data ++ '"' :: (':' :: ' ' :: (serVal v ++ X))) := by
  have h : serMembers (.cons k v .nil) = serStr k ++ ':' :: ' ' :: serVal v := rfl
  rw [h]; simp [serStr, List.cons_append, List.append_assoc]

theorem serMembers_cons_shape (k : String) (v : Json) (k2 : String) (v2 : Json)
    (tl2 : JsonMembers) (X : List Char) :
    serMembers (.cons k v (.cons k2 v2 tl2)) ++ X
      = '"' :: (encChars k.data ++ '"' :: (':' :: ' ' ::
          (serVal v ++ (',' :: ' ' :: (serMembers (.cons k2 v2 tl2) ++ X))))) := by
  have h : serMembers (.cons k v (.cons k2 v2 tl2))
      = serStr k ++ ':' :: ' ' :: serVal v ++ ',' :: ' ' :: serMembers (.cons k2 v2 tl2) :=
    rfl
  rw [h]; simp [serStr, List.cons_append, List.append_assoc]

theorem jskipWs_serMembers_cons (k : String) (v : Json) (tl : JsonMembers)
    (X : List Char) :
    jskipWs (serMembers (.cons k v tl) ++ X) = serMembers (.cons k v tl) ++ X := by
  cases tl with
  | nil =>
    rw [serMembers_nil_shape]
    exact jskipWs_cons_of_not (by decide) _
  | cons k2 v2 tl2 =>
    rw [serMembers_cons_shape]
    exact jskipWs_cons_of_not (by decide) _

theorem parseMembers_serAux (n : Nat) : ∀ (ms : JsonMembers), countMembers ms = n →
    allScalar ms = true → ms ≠ .nil →
    ∀ f, countMembers ms ≤ f → ∀ rest,
    parseMembers (f + 1) (serMembers ms ++ '}' :: rest) = some (ms, rest) := by
  induction n using Nat.strong_induction_on with
  | _ n ihn =>
    intro ms hn hA hne f hf rest
    cases ms with
    | nil => exact absurd rfl hne
    | cons k v tl =>
    have hv : isScalar v = true := by
      simp only [allScalar, Bool.and_eq_true] at hA; exact hA.1
    have hAtl : allScalar tl = true := by
      simp only [allScalar, Bool.and_eq_true] at hA; exact hA.2
    obtain ⟨g, rfl⟩ : ∃ g, f = g + 1 := by
      refine ⟨f - 1, ?_⟩
      have h1 := hf
      simp only [countMembers] at h1
      omega
    cases tl with
    | nil =>
      rw [serMembers_nil_shape]
      have hval : parseVal (g + 1) (' ' :: (serVal v ++ '}' :: rest))
          = some (v, '}' :: rest) := by
        rw [parseVal_ws_cons (by decide)]
        exact parseVal_scalar hv g _ (by simp only [headNotDigit]; decide)
      rw [parseMembers.eq_def]
      simp [parseStrBody_enc, jskipWs, isJsonWs, hval, string_eta]
    | cons k2 v2 tl2 =>
      rw [serMembers_cons_shape]
      have hval : parseVal (g + 1)
          (' ' :: (serVal v ++ ',' :: ' ' :: (serMembers (.cons k2 v2 tl2) ++ '}' :: rest)))
          = some (v, ',' :: ' ' :: (serMembers (.cons k2 v2 tl2) ++ '}' :: rest)) := by
        rw [parseVal_ws_cons (by decide)]
        exact parseVal_scalar hv g _ (by simp only [headNotDigit]; decide)
      have hcount : countMembers (.cons k2 v2 tl2) ≤ g := by
        simp only [countMembers] at hf ⊢; omega
      have hrec : parseMembers (g + 1)
          (serMembers (.cons k2 v2 tl2) ++ '}' :: rest)
          = some (.cons k2 v2 tl2, rest) := by
        refine ihn (countMembers (JsonMembers.cons k2 v2 tl2)) ?_ _ rfl hAtl
          (by intro h; exact JsonMembers.noConfusion h) g hcount rest
        subst hn; simp only [countMembers]; omega
      rw [parseMembers.eq_def]
      simp [parseStrBody_enc, jskipWs, isJsonWs, hval, jskipWs_serMembers_cons,
        hrec, string_eta]

theorem countMembers_le_lenAux (n : Nat) : ∀ ms, countMembers ms = n →
    countMembers ms ≤ (serMembers ms).length := by
  induction n using Nat.strong_induction_on with
  | _ n ihn =>
    intro ms hn
    cases ms with
    | nil => simp [countMembers]
    | cons k v tl =>
      cases tl with
      | nil =>
        have e : serMembers (.cons k v .nil) = serStr k ++ ':' :: ' ' :: serVal v := rfl
        rw [e]
        simp [countMembers, serStr]
      | cons k2 v2 tl2 =>
        have e : serMembers (.cons k v (.cons k2 v2 tl2))
            = serStr k ++ ':' :: ' ' :: serVal v ++ ',' :: ' ' ::
              serMembers (.cons k2 v2 tl2) := rfl
        have hih : countMembers (.cons k2 v2 tl2)
            ≤ (serMembers (.cons k2 v2 tl2)).length := by
          refine ihn (countMembers (JsonMembers.cons k2 v2 tl2)) ?_ _ rfl
          subst hn; simp only [countMembers]; omega
        rw [e]
        simp only [countMembers] at hih ⊢
        simp only [serStr, List.length_append, List.length_cons]
        omega

theorem countMembers_le_len (ms : JsonMembers) :
    countMembers ms ≤ (serMembers ms).length :=
  countMembers_le_lenAux _ ms rfl

theorem serMembers_cons_headX (k : String) (v : Json) (tl : JsonMembers)
    (X : List Char) : ∃ M, serMembers (.cons k v tl) ++ X = '"' :: M := by
  cases tl with
  | nil => exact ⟨_, serMembers_nil_shape k v X⟩
  | cons k2 v2 tl2 => exact ⟨_, serMembers_cons_shape k v k2 v2 tl2 X⟩

theorem parseVal_obj_ser (ms : JsonMembers) (hA : allScalar ms = true) :
    ∀ f, countMembers ms + 1 ≤ f → ∀ rest,
    parseVal (f + 1) (serVal (.obj ms) ++ rest) = some (.obj ms, rest) := by
  intro f hf rest
  cases ms with
  | nil =>
    rw [show serVal (.obj .nil) ++ rest = '{' :: '}' :: rest from rfl]
    simp [parseVal.eq_def, jskipWs, isJsonWs]
  | cons k v tl =>
    obtain ⟨x, rfl⟩ : ∃ x, f = x + 1 := by
      refine ⟨f - 1, ?_⟩
      simp only [countMembers] at hf; omega
    have hx : countMembers (JsonMembers.cons k v tl) ≤ x := by
      simp only [countMembers] at hf ⊢; omega
    have hrec := parseMembers_serAux (countMembers (JsonMembers.cons k v tl))
      (JsonMembers.cons k v tl) rfl hA
      (by intro h; exact JsonMembers.noConfusion h) x hx rest
    rw [show serVal (.obj (.cons k v tl)) ++ rest
        = '{' :: (serMembers (.cons k v tl) ++ '}' :: rest) from by
      show ('{' :: (serMembers (.cons k v tl) ++ ['}'])) ++ rest = _
      simp]
    rw [parseVal.eq_def]
    obtain ⟨M, hM⟩ := serMembers_cons_headX k v tl ('}' :: rest)
    rw [hM] at hrec
    simp [jskipWs_cons_of_not (show isJsonWs '{' = false by decide),
      jskipWs_cons_of_not (show isJsonWs '"' = false by decide), hM, hrec]

/-- Wrapper for `parseMembers_serAux` at the natural instance. -/
theorem parseMembers_ser (ms : JsonMembers) (hA : allScalar ms = true)
    (hne : ms ≠ .nil) (f : Nat) (hf : countMembers ms ≤ f) (rest : List Char) :
    parseMembers (f + 1) (serMembers ms ++ '}' :: rest) = some (ms, rest) :=
  parseMembers_serAux _ ms rfl hA hne f hf rest

theorem loads_dumps (ms : JsonMembers) (hA : allScalar ms = true) :
    loads (serVal (.obj ms)) = some (.obj ms) := by
  unfold loads loadsE
  have hlen : (serVal (.obj ms)).length = (serMembers ms).length + 2 := by
    show ('{' :: (serMembers ms ++ ['}'])).length = _
    simp
  rw [hlen]
  have hp : parseVal ((serMembers ms).length + 2 + 1) (serVal (.obj ms))
      = some (.obj ms, []) := by
    have hc := countMembers_le_len ms
    have := parseVal_obj_ser ms hA ((serMembers ms).length + 2) (by omega) []
    simpa using this
  rw [hp]
  simp [jskipWs, Except.toOption]

theorem extract_dumps (ms : JsonMembers) (hA : allScalar ms = true) :
    extract_json_from_cli_response (dumps (.obj ms)) = some (.obj ms) := by
  unfold extract_json_from_cli_response
  have hstrip : pyStrip (dumps (.obj ms)).data = serVal (.obj ms) := by
    show pyStrip (serVal (.obj ms)) = _
    rw [show serVal (.obj ms) = '{' :: (serMembers ms ++ ['}']) from rfl]
    exact pyStrip_wrap (by decide) (by decide) _
  rw [hstrip]
  unfold extractCore
  rw [loads_dumps ms hA]

theorem scalarMatches_isScalar {t : FieldTy} {v : Json}
    (h : scalarMatches t v = true) : isScalar v = true := by
  cases t <;> cases v <;> simp_all [scalarMatches, isScalar]

theorem fieldsMatch_allScalar (fs : List (String × FieldTy)) :
    ∀ ms, fieldsMatch fs ms = true → allScalar ms = true := by
  induction fs with
  | nil =>
    intro ms h
    cases ms with
    | nil => rfl
    | cons k v tl => exact absurd h (by simp [fieldsMatch])
  | cons f fs ih =>
    intro ms h
    cases ms with
    | nil => exact absurd h (by cases f; simp [fieldsMatch])
    | cons k v tl =>
      cases f with
      | mk k0 t0 =>
        simp only [fieldsMatch, Bool.and_eq_true] at h
        simp only [allScalar, Bool.and_eq_true]
        exact ⟨scalarMatches_isScalar h.1.2, ih tl h.2⟩

theorem fenceSearch_none {tag : List Char} (htag : ∃ u, tag = fence3 ++ u) :
    ∀ {h : List Char}, subOf fence3 h = false → fenceSearch tag h = none := by
  intro h
  induction h with
  | nil => intro _; rfl
  | cons c tl ih =>
    intro hsub
    simp only [subOf, Bool.or_eq_false_iff] at hsub
    have hpre : tag.isPrefixOf (c :: tl) = false := by
      cases hp : tag.isPrefixOf (c :: tl) with
      | false => rfl
      | true =>
        obtain ⟨u, rfl⟩ := htag
        obtain ⟨t, ht⟩ := (isPrefixOf_iff _ _).mp hp
        have : subOf fence3 (c :: tl) = true :=
          (subOf_iff _ _).mpr ⟨[], u ++ t, by simp [ht]⟩
        rw [subOf, Bool.or_eq_false_iff.mpr hsub] at this
        exact absurd this (by simp)
    rw [fenceSearch, hpre]
    simp only [Bool.false_eq_true, if_false]
    exact ih hsub.2

theorem firstIdx_none {ch : Char} : ∀ {l : List Char}, ch ∉ l →
    firstIdx ch l = none := by
  intro l
  induction l with
  | nil => intro _; rfl
  | cons c tl ih =>
    intro hm
    have hc : ¬(c = ch) := by
      intro h; subst h; exact hm (by simp)
    have htl : ch ∉ tl := fun h => hm (by simp [h])
    simp [firstIdx, hc, ih htl]

theorem braceSpan_none {c : List Char} (hm : '{' ∉ c) : braceSpan c = none := by
  rw [braceSpan, firstIdx_none hm]

theorem extract_none_of_all_fail {s : String} (hb : '{' ∉ s.data)
    (hf : subOf fence3 s.data = false) (hl : loads (pyStrip s.data) = none) :
    extract_json_from_cli_response s = none := by
  have hf' : subOf fence3 (pyStrip s.data) = false := subOf_pyStrip_false hf
  have hfj : fenceSearch tagJson (pyStrip s.data) = none :=
    fenceSearch_none ⟨['j', 's', 'o', 'n'], rfl⟩ hf'
  have hf3 : fenceSearch fence3 (pyStrip s.data) = none :=
    fenceSearch_none ⟨[], by simp⟩ hf'
  have hbr : braceSpan (pyStrip s.data) = none :=
    braceSpan_none (fun hm => hb (mem_pyStrip hm))
  unfold extract_json_from_cli_response extractCore
  rw [hl, hfj, hf3, hbr]
  rfl

theorem pyStrip_dumps_obj (ms : JsonMembers) :
    pyStrip (dumps (.obj ms)).data = serVal (.obj ms) := by
  show pyStrip (serVal (.obj ms)) = _
  rw [show serVal (.obj ms) = '{' :: (serMembers ms ++ ['}']) from rfl]
  exact pyStrip_wrap (by decide) (by decide) _

/-- C2 (amended): for every schema-conformant structured value V that is a
non-empty object — so that its parsed form is truthy — replacing the external
tool by one that writes exactly the direct JSON serialization of V to stdout
(exit status 0) makes the pipeline return the typed result equal to V. The
original claim fails only at falsy conformant values (the empty object), which
`call_llm_cli`'s truthiness test misclassifies as an extraction failure. -/
theorem c2_roundtrip_nonempty (schema : Schema) (ms : JsonMembers)
    (mp : String) (t : Nat)
    (hc : conformsTo schema (.obj ms) = true) (hne : ms ≠ .nil) :
    call_llm_cli schema mp t (.completed 0 (dumps (.obj ms)) "")
      = .ok (.obj ms) := by
  have hfm : fieldsMatch schema.fields ms = true := by
    simpa [conformsTo] using hc
  have hA : allScalar ms = true := fieldsMatch_allScalar _ ms hfm
  have he : extract_json_from_cli_response ⟨serVal (.obj ms)⟩ = some (.obj ms) :=
    extract_dumps ms hA
  unfold call_llm_cli
  simp only [show ¬((0 : Int) ≠ 0) from by omega, if_false]
  unfold materialize
  rw [pyStrip_dumps_obj]
  simp only [he]
  cases ms with
  | nil => exact absurd rfl hne
  | cons k v tl =>
    simp [truthy, validateModel, hfm]

/-- Witness for C2's amended round-trip at a concrete one-field schema and
value. -/
theorem c2_roundtrip_nonempty_witness :
    conformsTo ⟨[("a", FieldTy.tInt)]⟩ (.obj (.cons "a" (.num 1) .nil)) = true
    ∧ JsonMembers.cons "a" (.num 1) .nil ≠ .nil
    ∧ call_llm_cli ⟨[("a", FieldTy.tInt)]⟩ "anthropic" 300
        (.completed 0 (dumps (.obj (.cons "a" (.num 1) .nil))) "")
        = .ok (.obj (.cons "a" (.num 1) .nil)) :=
  ⟨rfl, by intro h; exact JsonMembers.noConfusion h,
    c2_roundtrip_nonempty _ _ _ _ rfl (by intro h; exact JsonMembers.noConfusion h)⟩

/-- C2 counterexample: the empty object is schema-conformant for a schema with
no required fields and serializes to a valid JSON object, yet the pipeline
raises the extraction-failure `Exception` instead of returning it, because
`call_llm_cli` tests the parsed value with `if parsed:` and `\x7b\x7d` is falsy. -/
theorem c2_empty_object_counterexample :
    conformsTo ⟨[]⟩ (.obj .nil) = true
    ∧ call_llm_cli ⟨[]⟩ "anthropic" 300 (.completed 0 (dumps (.obj .nil)) "")
        = .error (.exc "Could not extract valid JSON from CLI response: \x7b\x7d") :=
  ⟨rfl, rfl⟩

/-- C9: on stdout exactly `\x7b\x7d`, extraction succeeds with the empty mapping
and the schema with no required fields would validate it, yet `call_llm_cli`
tests the extracted value for truthiness rather than presence and raises the
extraction-failure `Exception` instead of validating. -/
theorem c9_empty_object_misclassified :
    extract_json_from_cli_response "\x7b\x7d" = some (.obj .nil)
    ∧ validateModel ⟨[]⟩ (.obj .nil) = .ok (.obj .nil)
    ∧ call_llm_cli ⟨[]⟩ "anthropic" 300 (.completed 0 "\x7b\x7d" "")
        = .error (.exc "Could not extract valid JSON from CLI response: \x7b\x7d") :=
  ⟨rfl, rfl, rfl⟩

/-- C10: on stdout `[1, 2]` the extractor returns a non-mapping value (a list)
despite its declared dict-or-None result, and `call_llm_cli` then fails with
the interpreter's `TypeError` from `**`-unpacking — an exception class outside
the five-kind failure taxonomy (neither the generic `Exception` nor pydantic's
`ValidationError`). -/
theorem c10_array_typeerror_escape :
    extract_json_from_cli_response "[1, 2]"
      = some (.arr (.cons (.num 1) (.cons (.num 2) .nil)))
    ∧ call_llm_cli ⟨[("a", FieldTy.tInt)]⟩ "anthropic" 300
        (.completed 0 "[1, 2]" "")
        = .error (.typeError "argument after ** must be a mapping")
    ∧ excClassName (.typeError "argument after ** must be a mapping") ≠ "Exception"
    ∧ excClassName (.typeError "argument after ** must be a mapping") ≠ "ValidationError" :=
  ⟨rfl, rfl, by decide, by decide⟩

/-- C1 (code behavior at the failing inputs): the four failure situations of
the invoke/extract/materialize pipeline that `call_llm_cli` raises itself —
tool not found, timeout, non-zero exit, and failed extraction — all surface to
the caller as the same builtin exception class `Exception`, distinguishable
only by message prose; they are not four distinct caller-facing exception
types as the spec's failure taxonomy requires. -/
theorem c1_failure_kinds_share_exception_class :
    call_llm_cli ⟨[("a", FieldTy.tInt)]⟩ "anthropic" 300 .timedOut
      = .error (.exc "CLI command timed out after 300 seconds")
    ∧ call_llm_cli ⟨[("a", FieldTy.tInt)]⟩ "anthropic" 300 .fileNotFound
      = .error (.exc "CLI tool 'claude' not found. Please ensure it's installed and in PATH.")
    ∧ call_llm_cli ⟨[("a", FieldTy.tInt)]⟩ "anthropic" 300 (.completed 1 "" "boom")
      = .error (.exc "CLI command failed: boom")
    ∧ call_llm_cli ⟨[("a", FieldTy.tInt)]⟩ "anthropic" 300
        (.completed 0 "no json here" "")
      = .error (.exc "Could not extract valid JSON from CLI response: no json here")
    ∧ excClassName (.exc "CLI command timed out after 300 seconds") = "Exception"
    ∧ excClassName
        (.exc "CLI tool 'claude' not found. Please ensure it's installed and in PATH.")
        = "Exception"
    ∧ excClassName (.exc "CLI command failed: boom") = "Exception"
    ∧ excClassName
        (.exc "Could not extract valid JSON from CLI response: no json here")
        = "Exception" :=
  ⟨rfl, rfl, rfl, rfl, rfl, rfl, rfl, rfl⟩

/-- C3 counterexample: `[1, 2]` contains no brace characters, yet extraction
does not return absent — the direct-parse strategy succeeds on the top-level
array and returns it. -/
theorem c3_braceless_json_counterexample :
    '{' ∉ "[1, 2]".data ∧ '}' ∉ "[1, 2]".data
    ∧ extract_json_from_cli_response "[1, 2]"
        = some (.arr (.cons (.num 1) (.cons (.num 2) .nil))) :=
  ⟨by decide, by decide, rfl⟩

/-- C3 (amended): the strategies apply in fixed priority order — direct parse
on `\x7b"a": 1\x7d`, the `json`-tagged fence on a fenced block, and the
brace-span strategy on prose around `\x7b"a": 1\x7d` each recover the mapping;
and any text with no opening brace, no triple-backtick fence, and whose
stripped content is not itself valid JSON yields absent (a brace-free text
that parses as JSON, such as a top-level array, is instead returned by the
direct-parse strategy). -/
theorem c3_extraction_priority_amended :
    extract_json_from_cli_response "\x7b\"a\": 1\x7d"
      = some (.obj (.cons "a" (.num 1) .nil))
    ∧ extract_json_from_cli_response "```json\n\x7b\"a\":1\x7d\n```"
      = some (.obj (.cons "a" (.num 1) .nil))
    ∧ extract_json_from_cli_response "Sure! Here is the result: \x7b\"a\": 1\x7d Hope that helps."
      = some (.obj (.cons "a" (.num 1) .nil))
    ∧ ∀ s : String, '{' ∉ s.data → subOf fence3 s.data = false →
        loads (pyStrip s.data) = none →
        extract_json_from_cli_response s = none :=
  ⟨rfl, rfl, rfl, fun _ hb hf hl => extract_none_of_all_fail hb hf hl⟩

/-- Witness for C3's universal clause at concrete brace-free prose. -/
theorem c3_extraction_priority_witness :
    ('{' ∉ "Nothing here.".data
      ∧ subOf fence3 "Nothing here.".data = false
      ∧ loads (pyStrip "Nothing here.".data) = none)
    ∧ extract_json_from_cli_response "Nothing here." = none :=
  ⟨⟨by decide, rfl, rfl⟩,
    c3_extraction_priority_amended.2.2.2 "Nothing here." (by decide) rfl rfl⟩

/-- C4: `extract_json_from_cli_response` is a total function value — on the
malformed but brace-delimited `\x7ba: 1,\x7d` every strategy's parse attempt
fails and the function returns absent; and in general, whenever the parse of
each strategy's candidate errors (the `json.JSONDecodeError` each
`except ... pass` absorbs), the function returns absent rather than
propagating any error. -/
theorem c4_extractor_total :
    extract_json_from_cli_response "\x7ba: 1,\x7d" = none
    ∧ ∀ s : String, loads (pyStrip s.data) = none →
        (fenceSearch tagJson (pyStrip s.data)).bind loads = none →
        (fenceSearch fence3 (pyStrip s.data)).bind loads = none →
        (braceSpan (pyStrip s.data)).bind loads = none →
        extract_json_from_cli_response s = none := by
  constructor
  · rfl
  · intro s h1 h2 h3 h4
    unfold extract_json_from_cli_response extractCore
    rw [h1, h2, h3, h4]

/-- Witness for C4 at the malformed brace-delimited input. -/
theorem c4_extractor_total_witness :
    (loads (pyStrip "\x7ba: 1,\x7d".data) = none
      ∧ (fenceSearch tagJson (pyStrip "\x7ba: 1,\x7d".data)).bind loads = none
      ∧ (fenceSearch fence3 (pyStrip "\x7ba: 1,\x7d".data)).bind loads = none
      ∧ (braceSpan (pyStrip "\x7ba: 1,\x7d".data)).bind loads = none)
    ∧ extract_json_from_cli_response "\x7ba: 1,\x7d" = none :=
  ⟨⟨rfl, rfl, rfl, rfl⟩,
    c4_extractor_total.2 "\x7ba: 1,\x7d" rfl rfl rfl rfl⟩

/-- C5: provider resolution is total and deterministic — every identifier
yields exactly one of the four table entries; the case-insensitive substring
tests apply in priority order with the first match winning; identifiers
matching no family get the default profile; and "Anthropic", "ANTHROPIC" and
"anthropic" all resolve to the same profile as "claude-3". -/
theorem c5_provider_resolution :
    (∀ s, get_cli_config s = cfgAnthropic ∨ get_cli_config s = cfgGoogle
      ∨ get_cli_config s = cfgOpenai ∨ get_cli_config s = cfgDefault)
    ∧ (∀ s, matchAnthropic s = true → get_cli_config s = cfgAnthropic)
    ∧ (∀ s, matchAnthropic s = false → matchGoogle s = true →
        get_cli_config s = cfgGoogle)
    ∧ (∀ s, matchAnthropic s = false → matchGoogle s = false →
        matchOpenai s = true → get_cli_config s = cfgOpenai)
    ∧ (∀ s, matchAnthropic s = false → matchGoogle s = false →
        matchOpenai s = false → get_cli_config s = cfgDefault)
    ∧ get_cli_config "Anthropic" = get_cli_config "claude-3"
    ∧ get_cli_config "ANTHROPIC" = get_cli_config "claude-3"
    ∧ get_cli_config "anthropic" = get_cli_config "claude-3"
    ∧ get_cli_config "claude-3" = cfgAnthropic := by
  refine ⟨?_, ?_, ?_, ?_, ?_, rfl, rfl, rfl, rfl⟩
  · intro s; unfold get_cli_config; split_ifs <;> simp
  · intro s h; simp [get_cli_config, h]
  · intro s h1 h2; simp [get_cli_config, h1, h2]
  · intro s h1 h2 h3; simp [get_cli_config, h1, h2, h3]
  · intro s h1 h2 h3; simp [get_cli_config, h1, h2, h3]

/-- Witness for C5's priority clauses at concrete identifiers. -/
theorem c5_provider_resolution_witness :
    (matchAnthropic "claude-3" = true
      ∧ get_cli_config "claude-3" = cfgAnthropic)
    ∧ (matchAnthropic "GPT-4o" = false ∧ matchGoogle "GPT-4o" = false
      ∧ matchOpenai "GPT-4o" = true ∧ get_cli_config "GPT-4o" = cfgOpenai)
    ∧ (matchAnthropic "unknown-vendor-123" = false
      ∧ matchGoogle "unknown-vendor-123" = false
      ∧ matchOpenai "unknown-vendor-123" = false
      ∧ get_cli_config "unknown-vendor-123" = cfgDefault) :=
  ⟨⟨rfl, c5_provider_resolution.2.1 "claude-3" rfl⟩,
    ⟨rfl, rfl, rfl, c5_provider_resolution.2.2.2.1 "GPT-4o" rfl rfl rfl⟩,
    ⟨rfl, rfl, rfl,
      c5_provider_resolution.2.2.2.2.1 "unknown-vendor-123" rfl rfl rfl⟩⟩

/-- C6: whenever the child process runs past the bound and `subprocess.run`
raises `TimeoutExpired`, `call_llm_cli` produces the timeout failure — never a
success value — and its message carries the configured timeout bound. -/
theorem c6_timeout_failure (schema : Schema) (mp : String) (t : Nat) :
    call_llm_cli schema mp t .timedOut
      = .error (.exc ("CLI command timed out after " ++ toString t ++ " seconds"))
    ∧ subOf (toString t).data
        ("CLI command timed out after " ++ toString t ++ " seconds").data = true := by
  constructor
  · rfl
  · rw [strData_append, strData_append, List.append_assoc]
    exact subOf_parts ..

/-- C7: whenever the resolved executable is absent and `subprocess.run` raises
`FileNotFoundError`, `call_llm_cli` produces the tool-not-found failure whose
message carries the executable name, and that message is never equal to any
`ExecutionFailed` message (which all start with "CLI command failed: "). -/
theorem c7_tool_not_found_failure (schema : Schema) (mp : String) (t : Nat) :
    call_llm_cli schema mp t .fileNotFound
      = .error (.exc ("CLI tool '" ++ (get_cli_config mp).cmd
          ++ "' not found. Please ensure it's installed and in PATH."))
    ∧ subOf (get_cli_config mp).cmd.data
        ("CLI tool '" ++ (get_cli_config mp).cmd
          ++ "' not found. Please ensure it's installed and in PATH.").data = true
    ∧ ∀ e : String,
        ("CLI tool '" ++ (get_cli_config mp).cmd
          ++ "' not found. Please ensure it's installed and in PATH.")
        ≠ ("CLI command failed: " ++ e) := by
  refine ⟨rfl, ?_, ?_⟩
  · rw [strData_append, strData_append, List.append_assoc]
    exact subOf_parts ..
  · intro e h
    have hd := congrArg String.data h
    rw [strData_append, strData_append, strData_append] at hd
    have e1 : "CLI tool '".data
        = ['C', 'L', 'I', ' ', 't', 'o', 'o', 'l', ' ', '\''] := rfl
    have e2 : "CLI command failed: ".data
        = ['C', 'L', 'I', ' ', 'c', 'o', 'm', 'm', 'a', 'n', 'd', ' ',
           'f', 'a', 'i', 'l', 'e', 'd', ':', ' '] := rfl
    rw [e1, e2] at hd
    simp only [List.cons_append, List.append_assoc, List.nil_append] at hd
    injection hd with h1 hd; injection hd with h2 hd; injection hd with h3 hd
    injection hd with h4 hd; injection hd with h5 hd
    exact absurd h5 (by decide)

/-- C8: prompt augmentation is append-only — the augmented prompt is exactly
the original prompt followed by the instruction block, and that block contains
the serialized schema, the valid-JSON instruction, and the instruction to omit
markdown code blocks and explanation. -/
theorem c8_prompt_append_only (p s : String) :
    augment p s = p ++ instrBlock s
    ∧ subOf s.data (instrBlock s).data = true
    ∧ subOf "valid JSON".data (instrBlock s).data = true
    ∧ subOf "no markdown code blocks".data (instrBlock s).data = true := by
  refine ⟨?_, ?_, ?_, ?_⟩
  · apply strExt
    simp [augment, instrBlock, strData_append, List.append_assoc]
  · show subOf s.data (("\n\nIMPORTANT: You must respond with valid JSON that matches this schema:\n" ++ s) ++ "\n\nRespond ONLY with the JSON object, no markdown code blocks, no explanation.").data = true
    rw [strData_append, strData_append, List.append_assoc]
    exact subOf_parts ..
  · show subOf "valid JSON".data (("\n\nIMPORTANT: You must respond with valid JSON that matches this schema:\n" ++ s) ++ "\n\nRespond ONLY with the JSON object, no markdown code blocks, no explanation.").data = true
    rw [strData_append, strData_append]
    exact subOf_append_right _ (subOf_append_right _ rfl)
  · show subOf "no markdown code blocks".data (("\n\nIMPORTANT: You must respond with valid JSON that matches this schema:\n" ++ s) ++ "\n\nRespond ONLY with the JSON object, no markdown code blocks, no explanation.").data = true
    rw [strData_append]
    exact subOf_append_left _ rfl

end LlmCli
